import Mathlib

/-!
Verification of the event-correlation core of `node-latency-for-k8s`
(packages `pkg/sources`, `pkg/sources/journal`, `pkg/sources/k8s`).

Go strings and byte slices are both embedded as `List Char` (`Str`); Go
errors are embedded as their message strings; `time.Time` values are
embedded as a calendar record (`GoTime`).  External collaborators (the
filesystem, the systemd journal decoder, the cluster API client and the
Go standard-library regexp engine restricted to literal patterns) enter
as explicit parameters of the embedded functions.
-/

/-- Go strings / byte slices, embedded as lists of characters. -/
abbrev Str := List Char

/-- Embedding of Go `time.Time` restricted to the calendar fields the
program reads and compares (year, month, day, hour, minute, second). -/
structure GoTime where
  year : Nat
  month : Nat
  day : Nat
  hour : Nat
  minute : Nat
  second : Nat
deriving DecidableEq, Repr

/-- Go's zero `time.Time{}`: January 1, year 1, 00:00:00. -/
def zeroGoTime : GoTime := ⟨1, 1, 1, 0, 0, 0⟩

/-- A strictly monotone key for the calendar order of `GoTime`; it models
the ordering induced by Go's `time.Time.UnixMicro`, which the program only
ever uses inside comparisons. -/
def timeKey (t : GoTime) : Nat :=
  ((((t.year * 13 + t.month) * 32 + t.day) * 24 + t.hour) * 60 + t.minute) * 60 + t.second

/-- Lexicographic byte order on strings, embedding Go's `<` on `string`. -/
def strLtB : Str → Str → Bool
  | [], [] => false
  | [], _ :: _ => true
  | _ :: _, [] => false
  | a :: as, b :: bs =>
    if a.toNat < b.toNat then true
    else if b.toNat < a.toNat then false
    else strLtB as bs

/-- Insertion of an element into a list sorted by the boolean relation
`le`; building block of the embedding of Go's `sort.Slice`. -/
def insOrd {α : Type} (le : α → α → Bool) (x : α) : List α → List α
  | [] => [x]
  | y :: ys => if le x y then x :: y :: ys else y :: insOrd le x ys

/-- Sorting by the boolean relation `le`.  Go's `sort.Slice(s, less)`
guarantees a permutation of `s` in which `less b a` fails for every
element `b` that follows `a`; `insSort (fun a b => !(less b a))` is such a
permutation, and it is the unique one whenever `less` is a strict total
order on the elements of `s`. -/
def insSort {α : Type} (le : α → α → Bool) : List α → List α
  | [] => []
  | x :: xs => insOrd le x (insSort le xs)

/-- One matched occurrence, embedding `sources.FindResult`
(`Line`, `Timestamp`, `Comment`, `Err`); `τ` is the timestamp type and
the error field holds the Go error's message when present. -/
structure FindResult (τ : Type) where
  line : Str
  timestamp : τ
  comment : Str
  err : Option Str
deriving DecidableEq, Repr

/-- `sources.EventMatchSelectorFirst`. -/
def EventMatchSelectorFirst : Str := "first".data
/-- `sources.EventMatchSelectorLast`. -/
def EventMatchSelectorLast : Str := "last".data
/-- `sources.EventMatchSelectorAll`. -/
def EventMatchSelectorAll : Str := "all".data

/-- Embedding of `sources.SelectMatches`: filter raw results based on the
provided matchSelector.  The Go `switch` with no `default` falls through
to the final `return results`. -/
def SelectMatches {τ : Type} (results : List (FindResult τ)) (matchSelector : Str) :
    List (FindResult τ) :=
  match results with
  | [] => []
  | r :: rs =>
    if matchSelector = EventMatchSelectorFirst then [r]
    else if matchSelector = EventMatchSelectorLast then [(r :: rs).getLast (by simp)]
    else if matchSelector = EventMatchSelectorAll then r :: rs
    else r :: rs

/-- Outcome of `os.Open` followed by `File.Stat` for one path, as consulted
by `sortedAscLogFiles`: the open can fail, the stat can fail, or both
succeed yielding the modification time (`ModTime().Unix()`). -/
inductive FileInfo where
  | openFail : FileInfo
  | statFail : FileInfo
  | ok : Int → FileInfo
deriving DecidableEq, Repr

/-- The filesystem and external collaborators as seen by the readers:
glob expansion (a failed `filepath.Glob` is the empty expansion), the
open/stat outcome used for sorting, the content delivered by
`os.Open` + `io.ReadAll` (`none` models an open failure), gzip
decompression (`none` models a `gzip.NewReader`/read failure), and the
external journal decoder `journal.Read` (`none` models its failure). -/
structure FS where
  glob : Str → List Str
  stat : Str → FileInfo
  openFile : Str → Option Str
  gunzip : Str → Option Str
  journalRead : Str → Option Str

/-- Whether an open+stat outcome succeeded. -/
def FileInfo.isOkB : FileInfo → Bool
  | .ok _ => true
  | _ => false

/-- The comparator closure passed to `sort.Slice` in `sortedAscLogFiles`:
open both files and stat them; on any open or stat failure compare the
path strings lexically, otherwise compare modification times. -/
def fileLess (fs : FS) (a b : Str) : Bool :=
  match fs.stat a with
  | .openFail => strLtB a b
  | .statFail =>
    match fs.stat b with
    | .openFail => strLtB a b
    | _ => strLtB a b
  | .ok ta =>
    match fs.stat b with
    | .openFail => strLtB a b
    | .statFail => strLtB a b
    | .ok tb => decide (ta < tb)

/-- The modification time a reader observes for a file whose open and
stat succeed (defaulting to 0 otherwise; only used under an
all-successful hypothesis in statements). -/
def mtOf (fs : FS) (f : Str) : Int :=
  match fs.stat f with
  | .ok t => t
  | _ => 0

/-- Embedding of `sources.sortedAscLogFiles`: expand the glob (error or
zero matches yield `nil`), then sort ascending with `fileLess`. -/
def sortedAscLogFiles (fs : FS) (globPath : Str) : List Str :=
  match fs.glob globPath with
  | [] => []
  | m :: ms => insSort (fun a b => ! fileLess fs b a) (m :: ms)

/-- Embedding of `sources.resolveOldestLogFile`. -/
def resolveOldestLogFile (fs : FS) (globPath : Str) : Str :=
  match sortedAscLogFiles fs globPath with
  | [] => []
  | f :: _ => f

/-- Embedding of `sources.resolveNewestLogFile`. -/
def resolveNewestLogFile (fs : FS) (globPath : Str) : Str :=
  match sortedAscLogFiles fs globPath with
  | [] => []
  | f :: fs' => (f :: fs').getLast (by simp)

/-- Offsets of the leftmost non-overlapping occurrences of the literal
pattern `p :: ps` in the scanned text, starting at offset `i`; this is
Go's `regexp.FindAll` semantics restricted to literal patterns, which is
the fragment of the external regexp engine the embedded `Find` functions
use.  After a match the next `skip = ps.length` positions are inside the
match and are not probed (non-overlap). -/
def findOffsetsAux (p : Char) (ps : Str) : Str → Nat → Nat → List Nat
  | [], _, _ => []
  | m :: rest, i, skip =>
    match skip with
    | s + 1 => findOffsetsAux p ps rest (i + 1) s
    | 0 =>
      if List.isPrefixOf (p :: ps) (m :: rest) then
        i :: findOffsetsAux p ps rest (i + 1) ps.length
      else findOffsetsAux p ps rest (i + 1) 0

/-- All non-overlapping matched substrings of the literal pattern `pat`
in `messages`, in order of byte offset (`regexp.FindAll` for a literal
pattern; the program never calls it with an empty pattern). -/
def findAll (pat : Str) (messages : Str) : List Str :=
  match pat with
  | [] => []
  | p :: ps => (findOffsetsAux p ps messages 0 0).map
      (fun i => (messages.drop i).take (ps.length + 1))

/-- The whitespace class of Go's regexp `\s`: tab, newline, form feed,
carriage return, space (the class behind the package-level `spaceRE`). -/
def isGoSpace (c : Char) : Bool :=
  c = ' ' || c = '\t' || c = '\n' || c = '\x0c' || c = '\r'

/-- Worker for `collapseWS`; the flag records whether the previously
consumed character was whitespace (i.e. we are inside a run). -/
def collapseWSAux : Bool → Str → Str
  | _, [] => []
  | prevWS, c :: rest =>
    if isGoSpace c then
      if prevWS then collapseWSAux true rest
      else ' ' :: collapseWSAux true rest
    else c :: collapseWSAux false rest

/-- Embedding of `spaceRE.ReplaceAllString(s, " ")`: every maximal run of
whitespace is replaced by a single space. -/
def collapseWS (s : Str) : Str := collapseWSAux false s

/-- Embedding of Go `strings.Contains(hay, needle)`. -/
def containsSubstr (hay needle : Str) : Bool :=
  match hay with
  | [] => decide (needle = [])
  | _ :: rest => List.isPrefixOf needle hay || containsSubstr rest needle

/-- Little-endian decimal digits of `n`; the first argument is
structural fuel (`n` itself always suffices). -/
def natDigitsAux : Nat → Nat → List Nat
  | 0, _ => []
  | _ + 1, 0 => []
  | fuel + 1, n + 1 => ((n + 1) % 10) :: natDigitsAux fuel ((n + 1) / 10)

/-- Decimal rendering of a natural number, as Go's `fmt.Sprint` renders a
non-negative integer. -/
def natStr (n : Nat) : Str :=
  if n = 0 then ['0']
  else ((natDigitsAux n n).reverse).map (fun d => Char.ofNat (48 + d))

/-- Decimal rendering of an integer, as Go's `fmt.Sprint` renders an
`int64`. -/
def intStr (i : Int) : Str :=
  if i < 0 then '-' :: natStr i.natAbs else natStr i.natAbs

/-- Numeric value of a decimal digit character. -/
def charDigit (c : Char) : Nat := c.toNat - 48

/-- Parse a non-empty all-digit string as a natural number. -/
def parseNatDigits (s : Str) : Option Nat :=
  if s ≠ [] ∧ s.all Char.isDigit then
    some (s.foldl (fun a c => a * 10 + charDigit c) 0)
  else none

/-- Parse an optionally signed decimal integer, as Go's
`strconv.ParseInt(s, 10, 64)` does (int64 overflow is not modelled; the
program feeds it Unix-second timestamps, far from the boundary). -/
def parseGoInt (s : Str) : Option Int :=
  match s with
  | '-' :: rest => (parseNatDigits rest).map (fun n => -(n : Int))
  | '+' :: rest => (parseNatDigits rest).map (fun n => (n : Int))
  | _ => (parseNatDigits s).map (fun n => (n : Int))

/-- The three-letter English month abbreviations of Go's `time` package,
in month order. -/
def monthNames : List Str :=
  ["Jan".data, "Feb".data, "Mar".data, "Apr".data, "May".data, "Jun".data,
   "Jul".data, "Aug".data, "Sep".data, "Oct".data, "Nov".data, "Dec".data]

/-- The month abbreviation of month `m` (1-based). -/
def fmtMonth (m : Nat) : Str := monthNames.getD (m - 1) []

/-- The 1-based month number of a month abbreviation. -/
def parseMonth (s : Str) : Option Nat :=
  match monthNames.findIdx? (fun x => x = s) with
  | some i => some (i + 1)
  | none => none

/-- Two-digit zero-padded decimal rendering (for `n < 100`). -/
def pad2 (n : Nat) : Str := [Char.ofNat (48 + n / 10), Char.ofNat (48 + n % 10)]

/-- Day-of-month rendering without padding, as in the layout `Jan 2`. -/
def fmtDay (d : Nat) : Str := if d < 10 then [Char.ofNat (48 + d)] else pad2 d

/-- Fixed-width `HH:MM:SS` clock rendering. -/
def fmtHMS (h mi s : Nat) : Str := pad2 h ++ ':' :: (pad2 mi ++ ':' :: pad2 s)

/-- A year-less syslog timestamp `Mon D HH:MM:SS` with single spaces (the
shape of a raw matched timestamp after whitespace collapsing). -/
def fmtSyslog (m d h mi s : Nat) : Str :=
  fmtMonth m ++ ' ' :: (fmtDay d ++ ' ' :: fmtHMS h mi s)

/-- Split a string at every occurrence of the character `c`. -/
def splitCh (c : Char) : Str → List Str
  | [] => [[]]
  | x :: xs =>
    if x = c then [] :: splitCh c xs
    else
      match splitCh c xs with
      | [] => [[x]]
      | g :: gs => (x :: g) :: gs

/-- The year-suffixed syslog reference layout `"Jan 2 15:04:05 2006"`
against which year-less log timestamps are parsed after the current year
is appended. -/
def syslogYearLayout : Str := "Jan 2 15:04:05 2006".data

/-- Modelled external collaborator: Go `time.Parse` restricted to the
layout `"Jan 2 15:04:05 2006"` — month abbreviation, 1-2 digit day,
fixed-width `HH:MM:SS` clock, decimal year, separated by single spaces,
with the field ranges `time.Parse` enforces (day-in-month granularity
beyond `1..31` is not modelled). -/
def parseSyslogYear (input : Str) : Option GoTime :=
  match splitCh ' ' input with
  | [monS, dayS, hmsS, yearS] =>
    match parseMonth monS, parseNatDigits dayS, splitCh ':' hmsS,
        parseNatDigits yearS with
    | some m, some d, [hS, miS, sS], some y =>
      match parseNatDigits hS, parseNatDigits miS, parseNatDigits sS with
      | some h, some mi, some s =>
        if 1 ≤ d ∧ d ≤ 31 ∧ h < 24 ∧ mi < 60 ∧ s < 60 ∧
            dayS.length ≤ 2 ∧ hS.length = 2 ∧ miS.length = 2 ∧ sS.length = 2 then
          some ⟨y, m, d, h, mi, s⟩
        else none
      | _, _, _ => none
    | _, _, _, _ => none
  | _ => none

/-- Modelled external collaborator: Go `time.Parse(layout, input)`,
defined for the layout the verified claims exercise. -/
def timeParse (layout input : Str) : Option GoTime :=
  if layout = syslogYearLayout then parseSyslogYear input else none

/-- The `fmt.Errorf` message of a failed timestamp regex search in
`ParseTimestamp` (the `TimestampNotFound` case of the error taxonomy). -/
def tsNotFoundMsg (reStr line : Str) : Str :=
  "unable to find timestamp on log line matching regex: \x22".data ++ reStr ++
    "\x22 \x22".data ++ line ++ "\x22".data

/-- The message of a failed `time.Parse` (the `TimestampParseError` case
of the error taxonomy). -/
def tsParseErrMsg (input layout : Str) : Str :=
  "parsing time \x22".data ++ input ++ "\x22 as \x22".data ++ layout ++ "\x22".data

/-- Embedding of `LogReader.ParseTimestamp` / `JournalReader.ParseTimestamp`
(the two method bodies are identical): find the raw timestamp with the
configured regex (`tsFind` embeds `TimestampRegex.FindString`, `reStr` its
`String()`), collapse whitespace runs, append the current year when the
collapsed raw substring does not contain it, and parse against the layout.
Failure returns Go's zero time together with the error message. -/
def ParseTimestampCore (tsFind : Str → Str) (reStr layout : Str) (year : Nat)
    (line : Str) : GoTime × Option Str :=
  let rawTS := tsFind line
  if rawTS = [] then (zeroGoTime, some (tsNotFoundMsg reStr line))
  else
    let rawTS2 := collapseWS rawTS
    let suffix := if containsSubstr rawTS2 (natStr year) then [] else ' ' :: natStr year
    match timeParse layout (rawTS2 ++ suffix) with
    | none => (zeroGoTime, some (tsParseErrMsg (rawTS2 ++ suffix) layout))
    | some ts => (ts, none)

/-- Embedding of `sources.LogReader`: the configured path (literal or
glob), the glob flag, the timestamp regex (as its `FindString` projection
`TimestampRegexFind` plus its `String()` rendering), the layout, and the
private byte cache. -/
structure LogReader where
  Path : Str
  Glob : Bool
  TimestampRegexFind : Str → Str
  TimestampRegexStr : Str
  TimestampLayout : Str
  file : Option Str

/-- Embedding of `LogReader.ClearCache`. -/
def LogReader.ClearCache (l : LogReader) : LogReader := { l with file := none }

/-- `fmt.Errorf` message of a failed `os.Open` in `LogReader.Read`. -/
def openErrMsg (p : Str) : Str := "unable to open log file ".data ++ p

/-- `fmt.Errorf` message of a failed `gzip.NewReader` in `LogReader.Read`. -/
def gzipErrMsg (p : Str) : Str := "unable to create gzip reader for file ".data ++ p

/-- Embedding of `LogReader.Read`: return the cache when populated,
otherwise resolve the path (oldest rotation for a glob), open it
(`fs.openFile` models `os.Open` + `io.ReadAll` of the raw bytes, `none`
being a failed call that caches nothing), decompress transparently when
the resolved name ends in `.gz`, and cache the bytes that were read. -/
def LogReader.Read (fs : FS) (l : LogReader) : Except Str Str × LogReader :=
  match l.file with
  | some b => (.ok b, l)
  | none =>
    let resolvedPath := if l.Glob then resolveOldestLogFile fs l.Path else l.Path
    match fs.openFile resolvedPath with
    | none => (.error (openErrMsg resolvedPath), l)
    | some bytes =>
      if List.isSuffixOf ".gz".data resolvedPath then
        match fs.gunzip bytes with
        | none => (.error (gzipErrMsg resolvedPath), l)
        | some dbytes => (.ok dbytes, { l with file := some dbytes })
      else (.ok bytes, { l with file := some bytes })

/-- `fmt.Errorf` message of a zero-match regex search in
`LogReader.Find` / `JournalReader.Find`. -/
def noMatchMsg (path pat : Str) : Str :=
  "no matches in ".data ++ path ++ " for regex \x22".data ++ pat ++ "\x22".data

/-- Embedding of `LogReader.Find(re)`: read cached or fresh bytes, find
all occurrences of the pattern, error (with the configured `Path` and the
pattern in the message) when there are none. -/
def LogReader.FindRe (fs : FS) (l : LogReader) (pat : Str) :
    Except Str (List Str) × LogReader :=
  match LogReader.Read fs l with
  | (.error e, l2) => (.error e, l2)
  | (.ok messages, l2) =>
    match findAll pat messages with
    | [] => (.error (noMatchMsg l.Path pat), l2)
    | line :: lines => (.ok (line :: lines), l2)

/-- Embedding of `LogReader.ParseTimestamp` (see `ParseTimestampCore`);
`year` is the ambient `time.Now().Year()`. -/
def LogReader.ParseTimestamp (year : Nat) (l : LogReader) (line : Str) :
    GoTime × Option Str :=
  ParseTimestampCore l.TimestampRegexFind l.TimestampRegexStr l.TimestampLayout year line

/-- Embedding of `sources.JournalReader`; the fields mirror `LogReader`. -/
structure JournalReader where
  Path : Str
  Glob : Bool
  TimestampRegexFind : Str → Str
  TimestampRegexStr : Str
  TimestampLayout : Str
  file : Option Str

/-- Embedding of `JournalReader.ClearCache`. -/
def JournalReader.ClearCache (l : JournalReader) : JournalReader := { l with file := none }

/-- `fmt.Errorf` message of a failed `journal.Read` in `JournalReader.Read`. -/
def journalErrMsg (p : Str) : Str := "unable to open journal at ".data ++ p

/-- Embedding of `JournalReader.Read`: return the cache when populated,
otherwise resolve the path (newest rotation for a glob), delegate byte
acquisition to the external journal decoder `journal.Read`
(`fs.journalRead`), and cache the bytes that were read. -/
def JournalReader.Read (fs : FS) (l : JournalReader) : Except Str Str × JournalReader :=
  match l.file with
  | some b => (.ok b, l)
  | none =>
    let resolvedPath := if l.Glob then resolveNewestLogFile fs l.Path else l.Path
    match fs.journalRead resolvedPath with
    | none => (.error (journalErrMsg resolvedPath), l)
    | some bytes => (.ok bytes, { l with file := some bytes })

/-- Embedding of `JournalReader.Find(re)` (same body as `LogReader.Find`). -/
def JournalReader.FindRe (fs : FS) (l : JournalReader) (pat : Str) :
    Except Str (List Str) × JournalReader :=
  match JournalReader.Read fs l with
  | (.error e, l2) => (.error e, l2)
  | (.ok messages, l2) =>
    match findAll pat messages with
    | [] => (.error (noMatchMsg l.Path pat), l2)
    | line :: lines => (.ok (line :: lines), l2)

/-- Embedding of `JournalReader.ParseTimestamp` (identical body to
`LogReader.ParseTimestamp`). -/
def JournalReader.ParseTimestamp (year : Nat) (l : JournalReader) (line : Str) :
    GoTime × Option Str :=
  ParseTimestampCore l.TimestampRegexFind l.TimestampRegexStr l.TimestampLayout year line

/-- Embedding of `sources.Event`.  The Go `FindFunc` also receives the
`Source` value; every closure the program installs either ignores it or
has it already captured, so the embedding keeps only the log-bytes
argument. -/
structure Event where
  Name : Str
  Metric : Str
  MatchSelector : Str
  Terminal : Bool
  SrcName : Str
  FindFn : Str → Except Str (List Str)
  CommentFn : Option (Str → Str)

/-- The per-line `FindResult` assembly loop of the journal source's
`Find`: parse the line's timestamp with the journal reader, derive the
comment, and attach any parse error to this result's `Err`. -/
def assembleJournalResults (year : Nat) (jr : JournalReader) (event : Event)
    (matchedLines : List Str) : List (FindResult GoTime) :=
  matchedLines.map (fun line =>
    let tsErr := JournalReader.ParseTimestamp year jr line
    let comment := match event.CommentFn with | none => [] | some f => f line
    { line := line, timestamp := tsErr.1, comment := comment, err := tsErr.2 })

/-- Embedding of the journal source's `Source.Find`
(pkg/sources/journal): read the journal bytes, run the event's `FindFn`,
assemble one `FindResult` per matched line, sort ascending by timestamp
(`sort.Slice` with `UnixMicro` comparison, embedded by `insSort` over
`timeKey`), and apply `SelectMatches`. -/
def journalSourceFind (fs : FS) (year : Nat) (jr : JournalReader) (event : Event) :
    Except Str (List (FindResult GoTime)) × JournalReader :=
  match JournalReader.Read fs jr with
  | (.error e, jr2) => (.error e, jr2)
  | (.ok logBytes, jr2) =>
    match event.FindFn logBytes with
    | .error e => (.error e, jr2)
    | .ok matchedLines =>
      let results := assembleJournalResults year jr2 event matchedLines
      let sorted := insSort
        (fun a b => ! decide (timeKey b.timestamp < timeKey a.timestamp)) results
      (.ok (SelectMatches sorted event.MatchSelector), jr2)

/-- A status condition of a cluster object (`corev1.NodeCondition` /
`corev1.PodCondition`): type, status, and the Unix seconds of
`LastTransitionTime`. -/
structure K8sCondition where
  type : Str
  status : Str
  lastTransitionTime : Int
deriving DecidableEq, Repr

/-- Embedding of the fields of `corev1.Node` the program reads. -/
structure K8sNode where
  creationTimestamp : Int
  conditions : List K8sCondition
deriving DecidableEq, Repr

/-- Embedding of the fields of `corev1.Pod` the program reads. -/
structure K8sPod where
  creationTimestamp : Int
  conditions : List K8sCondition
deriving DecidableEq, Repr

/-- The cluster API client as seen by the k8s source: the pod list
returned for this node's field selector and the node lookup by name
(errors embed transport failures). -/
structure K8sApi where
  listPods : Except Str (List K8sPod)
  getNode : Except Str K8sNode

/-- Embedding of `k8s.Source.FindPod`: list the pods scheduled on this
node; zero items is the `ObjectNotFound` failure, otherwise the first
pod is returned. -/
def k8sFindPod (api : K8sApi) : Except Str K8sPod :=
  match api.listPods with
  | .error e => .error e
  | .ok pods =>
    match pods with
    | [] => .error "unable to find pods".data
    | pod :: _ => .ok pod

/-- Embedding of the `FindFunc` returned by `k8s.Source.FindNodeReadyTime`:
get the node, keep the `LastTransitionTime` of every condition with type
`Ready` and status `True` (`lo.FilterMap`), and fail with the
`ConditionNotFound` message when none matches. -/
def k8sFindNodeReadyTime (api : K8sApi) : Except Str (List Str) :=
  match api.getNode with
  | .error e => .error e
  | .ok node =>
    match node.conditions.filterMap (fun c =>
        if c.type = "Ready".data ∧ c.status = "True".data then
          some (intStr c.lastTransitionTime)
        else none) with
    | [] => .error "unable to find nodes with Ready condition".data
    | m :: ms => .ok (m :: ms)

/-- Unix seconds of Go's zero `time.Time{}` (January 1, year 1 UTC). -/
def zeroTimeUnixSec : Int := -62135596800

/-- Embedding of `k8s.Source.ParseTimeFor`: parse a decimal Unix-second
string; failure returns the zero time and the error message, success
returns `time.Unix(sec, 0)` (embedded by its Unix seconds). -/
def parseTimeFor (unixSec : Str) : Int × Option Str :=
  match parseGoInt unixSec with
  | none => (zeroTimeUnixSec, some "unable to parse time for K8s event".data)
  | some ts => (ts, none)

/-- Embedding of `k8s.Source.Find`: run the event's `FindFunc` (with nil
log bytes), build one `FindResult` per returned value attaching any
`ParseTimeFor` error to that result's `Err`, and apply `SelectMatches`
without any reordering. -/
def k8sSourceFind (event : Event) : Except Str (List (FindResult Int)) :=
  match event.FindFn [] with
  | .error e => .error e
  | .ok k8sEvents =>
    let results := k8sEvents.map (fun kev =>
      let comment := match event.CommentFn with | none => [] | some f => f kev
      let te := parseTimeFor kev
      { line := kev, timestamp := te.1, comment := comment, err := te.2 })
    .ok (SelectMatches results event.MatchSelector)

/-- Concrete filesystem fixture: two rotated log files where lexical
filename order disagrees with modification-time order (`a.log` is newer
than `a.log.2`). -/
def rotFS : FS where
  glob := fun _ => ["a.log".data, "a.log.2".data]
  stat := fun p =>
    if p = "a.log".data then .ok 100
    else if p = "a.log.2".data then .ok 50
    else .openFail
  openFile := fun _ => none
  gunzip := fun _ => none
  journalRead := fun _ => none

/-- Concrete reader fixture: a non-glob log reader whose cache is already
populated with the bytes `xabyab`. -/
def litLR : LogReader where
  Path := "/var/log/x".data
  Glob := false
  TimestampRegexFind := fun _ => []
  TimestampRegexStr := []
  TimestampLayout := []
  file := some "xabyab".data

/-- Concrete filesystem fixture: delivers content `v1` for every plain
file and `j1` for every journal path. -/
def fsV1 : FS where
  glob := fun _ => []
  stat := fun _ => .openFail
  openFile := fun _ => some "v1".data
  gunzip := fun _ => none
  journalRead := fun _ => some "j1".data

/-- Concrete filesystem fixture: same shape as `fsV1` but the on-disk
content has changed to `v2` / `j2`. -/
def fsV2 : FS where
  glob := fun _ => []
  stat := fun _ => .openFail
  openFile := fun _ => some "v2".data
  gunzip := fun _ => none
  journalRead := fun _ => some "j2".data

/-- Concrete reader fixture: plain (non-glob, non-gz) file reader with an
empty cache. -/
def plainLR : LogReader where
  Path := "/var/log/p".data
  Glob := false
  TimestampRegexFind := fun _ => []
  TimestampRegexStr := []
  TimestampLayout := []
  file := none

/-- Concrete journal reader fixture with an empty cache. -/
def plainJR : JournalReader where
  Path := "/var/log/journal/x".data
  Glob := false
  TimestampRegexFind := fun _ => []
  TimestampRegexStr := []
  TimestampLayout := []
  file := none

/-- Concrete filesystem fixture for the compressed-file path: one `.gz`
file whose raw bytes decompress to `xabyab`. -/
def gzFS : FS where
  glob := fun _ => []
  stat := fun _ => .openFail
  openFile := fun p => if p = "/var/log/c.gz".data then some "rawgz".data else none
  gunzip := fun b => if b = "rawgz".data then some "xabyab".data else none
  journalRead := fun _ => none

/-- Concrete reader fixture bound to the `.gz` file of `gzFS`. -/
def gzLR : LogReader where
  Path := "/var/log/c.gz".data
  Glob := false
  TimestampRegexFind := fun _ => []
  TimestampRegexStr := []
  TimestampLayout := []
  file := none

/-- Concrete cluster fixture: a node reporting two `Ready=True`
conditions (among others) and an empty pod list. -/
def nodeTwoReady : K8sNode where
  creationTimestamp := 0
  conditions :=
    [⟨"Ready".data, "True".data, 5⟩,
     ⟨"MemoryPressure".data, "False".data, 7⟩,
     ⟨"Ready".data, "False".data, 8⟩,
     ⟨"Ready".data, "True".data, 9⟩]

/-- Concrete cluster API fixture wrapping `nodeTwoReady`. -/
def apiTwoReady : K8sApi where
  listPods := .ok []
  getNode := .ok nodeTwoReady

/-- Concrete journal reader fixture whose timestamp regex never matches
(its `FindString` always returns the empty string) and whose cache holds
the bytes `log`. -/
def noTsJR : JournalReader where
  Path := "/j".data
  Glob := false
  TimestampRegexFind := fun _ => []
  TimestampRegexStr := "re".data
  TimestampLayout := syslogYearLayout
  file := some "log".data

/-- Concrete event fixture: matches the single line `hi` with selector
`all`. -/
def noTsEvent : Event where
  Name := "e".data
  Metric := "m".data
  MatchSelector := EventMatchSelectorAll
  Terminal := false
  SrcName := "Journal".data
  FindFn := fun _ => .ok ["hi".data]
  CommentFn := none

/-- Concrete journal reader fixture whose timestamp regex matches the
whole line (identity `FindString`), layout `Jan 2 15:04:05 2006`. -/
def sortJR : JournalReader where
  Path := "/j".data
  Glob := false
  TimestampRegexFind := fun line => line
  TimestampRegexStr := "ts".data
  TimestampLayout := syslogYearLayout
  file := some "x".data

/-- Concrete event fixture: three matched lines whose timestamps are out
of chronological order in physical order (Jan 3, Jan 1, Jan 2). -/
def sortEvent : Event where
  Name := "e".data
  Metric := "m".data
  MatchSelector := EventMatchSelectorAll
  Terminal := false
  SrcName := "Journal".data
  FindFn := fun _ => .ok
    ["Jan 3 00:00:00 2026".data, "Jan 1 00:00:00 2026".data,
     "Jan 2 00:00:00 2026".data]
  CommentFn := none

/-- Concrete event fixture for the cluster-state source: three Unix-second
values out of numeric order. -/
def k8sSeqEvent : Event where
  Name := "e".data
  Metric := "m".data
  MatchSelector := EventMatchSelectorAll
  Terminal := false
  SrcName := "K8s".data
  FindFn := fun _ => .ok ["9".data, "5".data, "7".data]
  CommentFn := none

/-! ## Helper lemmas about the sorting model -/

theorem strLtB_asymm : ∀ a b : Str, strLtB a b = true → strLtB b a = true → False
  | [], [], h, _ => by simp [strLtB] at h
  | [], _ :: _, _, h' => by simp [strLtB] at h'
  | _ :: _, [], h, _ => by simp [strLtB] at h
  | a :: as, b :: bs, h, h' => by
    simp only [strLtB] at h h'
    by_cases hab : a.toNat < b.toNat
    · simp [hab, Nat.lt_asymm hab] at h'
    · by_cases hba : b.toNat < a.toNat
      · simp [hab, hba] at h
      · simp [hab, hba] at h h'
        exact strLtB_asymm as bs h h'

theorem mem_insOrd {α : Type} (le : α → α → Bool) (x a : α) :
    ∀ l : List α, a ∈ insOrd le x l ↔ a = x ∨ a ∈ l
  | [] => by simp [insOrd]
  | y :: ys => by
    simp only [insOrd]
    by_cases h : le x y = true
    · simp [h]
    · simp only [h, if_neg, Bool.false_eq_true, if_false, List.mem_cons,
        mem_insOrd le x a ys]
      tauto

theorem perm_insOrd {α : Type} (le : α → α → Bool) (x : α) :
    ∀ l : List α, List.Perm (insOrd le x l) (x :: l)
  | [] => by simp [insOrd]
  | y :: ys => by
    simp only [insOrd]
    by_cases h : le x y = true
    · simp [h]
    · simp only [h, Bool.false_eq_true, if_false]
      exact List.Perm.trans ((perm_insOrd le x ys).cons y) (List.Perm.swap x y ys)

theorem perm_insSort {α : Type} (le : α → α → Bool) :
    ∀ l : List α, List.Perm (insSort le l) l
  | [] => by simp [insSort]
  | x :: xs => by
    simp only [insSort]
    exact List.Perm.trans (perm_insOrd le x (insSort le xs))
      ((perm_insSort le xs).cons x)

theorem mem_insSort {α : Type} (le : α → α → Bool) (l : List α) (a : α) :
    a ∈ insSort le l ↔ a ∈ l :=
  (perm_insSort le l).mem_iff

theorem insOrd_congr {α : Type} (le₁ le₂ : α → α → Bool) (x : α) :
    ∀ l : List α, (∀ a ∈ l, le₁ x a = le₂ x a) →
      insOrd le₁ x l = insOrd le₂ x l
  | [], _ => rfl
  | y :: ys, h => by
    simp only [insOrd, h y (by simp)]
    by_cases h2 : le₂ x y = true
    · simp [h2]
    · simp only [h2, Bool.false_eq_true, if_false]
      rw [insOrd_congr le₁ le₂ x ys (fun a ha => h a (by simp [ha]))]

theorem insSort_congr {α : Type} (le₁ le₂ : α → α → Bool) :
    ∀ l : List α, (∀ a ∈ l, ∀ b ∈ l, le₁ a b = le₂ a b) →
      insSort le₁ l = insSort le₂ l
  | [], _ => rfl
  | x :: xs, h => by
    simp only [insSort]
    rw [insSort_congr le₁ le₂ xs (fun a ha b hb => h a (by simp [ha]) b (by simp [hb]))]
    refine insOrd_congr le₁ le₂ x _ (fun a ha => ?_)
    exact h x (by simp) a (by simp [(mem_insSort le₂ xs a).mp ha])

theorem pairwise_insOrd {α : Type} (le : α → α → Bool)
    (total : ∀ a b, le a b = true ∨ le b a = true)
    (trans : ∀ a b c, le a b = true → le b c = true → le a c = true)
    (x : α) :
    ∀ l : List α, l.Pairwise (fun a b => le a b = true) →
      (insOrd le x l).Pairwise (fun a b => le a b = true)
  | [], _ => by simp [insOrd]
  | y :: ys, h => by
    simp only [insOrd]
    rcases List.pairwise_cons.mp h with ⟨hy, hys⟩
    by_cases hxy : le x y = true
    · rw [if_pos hxy]
      refine List.pairwise_cons.mpr ⟨?_, h⟩
      intro a ha
      rcases List.mem_cons.mp ha with rfl | ha
      · exact hxy
      · exact trans x y a hxy (hy a ha)
    · rw [if_neg hxy]
      refine List.pairwise_cons.mpr ⟨?_, pairwise_insOrd le total trans x ys hys⟩
      intro a ha
      rcases (mem_insOrd le x a ys).mp ha with ha1 | ha
      · rw [ha1]
        rcases total x y with h1 | h1
        · exact absurd h1 hxy
        · exact h1
      · exact hy a ha

theorem pairwise_insSort {α : Type} (le : α → α → Bool)
    (total : ∀ a b, le a b = true ∨ le b a = true)
    (trans : ∀ a b c, le a b = true → le b c = true → le a c = true) :
    ∀ l : List α, (insSort le l).Pairwise (fun a b => le a b = true)
  | [] => by simp [insSort]
  | x :: xs => by
    simp only [insSort]
    exact pairwise_insOrd le total trans x _ (pairwise_insSort le total trans xs)

theorem pairwise_rel_getLast {α : Type} {R : α → α → Prop} :
    ∀ (l : List α) (hne : l ≠ []), l.Pairwise R → ∀ y ∈ l,
      y = l.getLast hne ∨ R y (l.getLast hne)
  | [], hne, _, _, _ => absurd rfl hne
  | [x], _, _, y, hy => by
    simp only [List.mem_singleton] at hy
    simp [hy]
  | x :: x2 :: xs, _, h, y, hy => by
    rcases List.pairwise_cons.mp h with ⟨hx, htail⟩
    rw [List.getLast_cons (by simp)]
    rcases List.mem_cons.mp hy with rfl | hy2
    · exact Or.inr (hx _ (List.getLast_mem (by simp)))
    · exact pairwise_rel_getLast (x2 :: xs) (by simp) htail y hy2

theorem insSort_ne_nil {α : Type} (le : α → α → Bool) (x : α) (xs : List α) :
    insSort le (x :: xs) ≠ [] := by
  intro h
  have := (perm_insSort le (x :: xs)).length_eq
  rw [h] at this
  simp at this

/-! ## Claim theorems -/

/-- C5: `SelectMatches` is total and idempotent: on the empty input every
selector returns empty; on a non-empty input `first` returns the
singleton of the first element, `last` the singleton of the last element,
and `all` the full input unchanged in order; and applying `SelectMatches`
twice with the same selector equals applying it once. -/
theorem selectMatches_total_idempotent {τ : Type} (sel : Str) :
    (SelectMatches ([] : List (FindResult τ)) sel = []) ∧
    (∀ (r : FindResult τ) rs,
      SelectMatches (r :: rs) EventMatchSelectorFirst = [r]) ∧
    (∀ (r : FindResult τ) rs,
      SelectMatches (r :: rs) EventMatchSelectorLast =
        [(r :: rs).getLast (by simp)]) ∧
    (∀ (r : FindResult τ) rs,
      SelectMatches (r :: rs) EventMatchSelectorAll = r :: rs) ∧
    (∀ results : List (FindResult τ),
      SelectMatches (SelectMatches results sel) sel = SelectMatches results sel) := by
  have hfl : EventMatchSelectorFirst ≠ EventMatchSelectorLast := by decide
  have hfa : EventMatchSelectorFirst ≠ EventMatchSelectorAll := by decide
  have hla : EventMatchSelectorLast ≠ EventMatchSelectorAll := by decide
  refine ⟨rfl, ?_, ?_, ?_, ?_⟩
  · intro r rs
    simp [SelectMatches]
  · intro r rs
    simp [SelectMatches, hfl.symm]
  · intro r rs
    simp [SelectMatches, hfl.symm, hfa.symm, hla.symm]
  · intro results
    match results with
    | [] => rfl
    | r :: rs =>
      by_cases h1 : sel = EventMatchSelectorFirst
      · subst h1; simp [SelectMatches, hfl.symm]
      · by_cases h2 : sel = EventMatchSelectorLast
        · subst h2
          simp [SelectMatches, hfl.symm, h1]
        · simp [SelectMatches, h1, h2]

theorem keyed_insSort_min_max {α β : Type} [LinearOrder β] (key : α → β)
    (m : α) (ms : List α) :
    ∃ x xs, insSort (fun a b => decide (key a ≤ key b)) (m :: ms) = x :: xs ∧
      x ∈ m :: ms ∧ (∀ y ∈ m :: ms, key x ≤ key y) ∧
      (x :: xs).getLast (by simp) ∈ m :: ms ∧
      (∀ y ∈ m :: ms, key y ≤ key ((x :: xs).getLast (by simp))) := by
  have htotal : ∀ a b : α,
      decide (key a ≤ key b) = true ∨ decide (key b ≤ key a) = true := by
    intro a b
    rcases le_total (key a) (key b) with h | h
    · exact Or.inl (decide_eq_true h)
    · exact Or.inr (decide_eq_true h)
  have htrans : ∀ a b c : α, decide (key a ≤ key b) = true →
      decide (key b ≤ key c) = true → decide (key a ≤ key c) = true := by
    intro a b c h1 h2
    exact decide_eq_true (le_trans (of_decide_eq_true h1) (of_decide_eq_true h2))
  have hpw := pairwise_insSort _ htotal htrans (m :: ms)
  cases hx : insSort (fun a b => decide (key a ≤ key b)) (m :: ms) with
  | nil => exact absurd hx (insSort_ne_nil _ m ms)
  | cons x xs =>
    rw [hx] at hpw
    have hpw2 : (x :: xs).Pairwise (fun a b => key a ≤ key b) :=
      hpw.imp (fun h => of_decide_eq_true h)
    refine ⟨x, xs, rfl, ?_, ?_, ?_, ?_⟩
    · exact (mem_insSort _ _ x).mp (by rw [hx]; simp)
    · intro y hy
      have hy2 : y ∈ x :: xs := by
        rw [← hx]
        exact (mem_insSort _ _ y).mpr hy
      rcases List.mem_cons.mp hy2 with h | hy3
      · rw [h]
      · exact List.rel_of_pairwise_cons hpw2 hy3
    · have := List.getLast_mem (l := x :: xs) (by simp)
      exact (mem_insSort _ _ _).mp (by rw [hx]; exact this)
    · intro y hy
      have hy2 : y ∈ x :: xs := by
        rw [← hx]
        exact (mem_insSort _ _ y).mpr hy
      rcases pairwise_rel_getLast (x :: xs) (by simp) hpw2 y hy2 with h | h
      · rw [h]
      · exact h

/-- C10: for every non-empty result list, `SelectMatches` applied with a
selector string that is none of `first`, `last`, or `all` (including the
empty string) returns the full input unchanged in order, behaving exactly
like the `all` selector. -/
theorem selectMatches_unknown_selector {τ : Type} (results : List (FindResult τ))
    (sel : Str) (h1 : sel ≠ EventMatchSelectorFirst)
    (h2 : sel ≠ EventMatchSelectorLast) (h3 : sel ≠ EventMatchSelectorAll)
    (h4 : results ≠ []) :
    SelectMatches results sel = results := by
  match results with
  | [] => exact absurd rfl h4
  | r :: rs => simp [SelectMatches, h1, h2, h3]

theorem selectMatches_unknown_selector_witness :
    SelectMatches [(⟨[], (0 : Int), [], none⟩ : FindResult Int)] [] =
      [(⟨[], (0 : Int), [], none⟩ : FindResult Int)] :=
  selectMatches_unknown_selector _ _ (by decide) (by decide) (by decide) (by simp)

/-- C2: for a glob whose expansion is non-empty, all of whose files open
and stat successfully, and whose modification times are pairwise
distinct, `resolveOldestLogFile` returns the file with the minimum
modification time and `resolveNewestLogFile` the file with the maximum,
regardless of filename lexical order; when the open or stat of a file
fails, the comparator falls back to lexical-string comparison for that
file's relative ordering (the resolution never aborts); a glob with zero
matches makes both resolvers return the empty string. -/
theorem resolveLogFiles_spec :
    (∀ (fs : FS) (g m : Str) (ms : List Str),
      fs.glob g = m :: ms →
      (∀ f ∈ m :: ms, (fs.stat f).isOkB = true) →
      (m :: ms).Pairwise (fun a b => mtOf fs a ≠ mtOf fs b) →
      (resolveOldestLogFile fs g ∈ m :: ms ∧
       (∀ f ∈ m :: ms, mtOf fs (resolveOldestLogFile fs g) ≤ mtOf fs f) ∧
       resolveNewestLogFile fs g ∈ m :: ms ∧
       (∀ f ∈ m :: ms, mtOf fs f ≤ mtOf fs (resolveNewestLogFile fs g)) ∧
       (∀ f ∈ m :: ms, (∀ f2 ∈ m :: ms, mtOf fs f ≤ mtOf fs f2) →
         resolveOldestLogFile fs g = f) ∧
       (∀ f ∈ m :: ms, (∀ f2 ∈ m :: ms, mtOf fs f2 ≤ mtOf fs f) →
         resolveNewestLogFile fs g = f))) ∧
    (∀ (fs : FS) (a b : Str),
      ((fs.stat a).isOkB = false ∨ (fs.stat b).isOkB = false) →
      fileLess fs a b = strLtB a b) ∧
    (∀ (fs : FS) (g : Str), fs.glob g = [] →
      resolveOldestLogFile fs g = [] ∧ resolveNewestLogFile fs g = []) := by
  refine ⟨?_, ?_, ?_⟩
  · intro fs g m ms hglob hall hdist
    have hsort : sortedAscLogFiles fs g =
        insSort (fun a b => decide (mtOf fs a ≤ mtOf fs b)) (m :: ms) := by
      unfold sortedAscLogFiles
      rw [hglob]
      apply insSort_congr
      intro a ha b hb
      have haok := hall a ha
      have hbok := hall b hb
      cases hsa : fs.stat a with
      | openFail => rw [hsa] at haok; simp [FileInfo.isOkB] at haok
      | statFail => rw [hsa] at haok; simp [FileInfo.isOkB] at haok
      | ok ta =>
        cases hsb : fs.stat b with
        | openFail => rw [hsb] at hbok; simp [FileInfo.isOkB] at hbok
        | statFail => rw [hsb] at hbok; simp [FileInfo.isOkB] at hbok
        | ok tb =>
          simp only [fileLess, hsa, hsb, mtOf]
          by_cases h : ta ≤ tb
          · rw [decide_eq_true h, decide_eq_false (not_lt.mpr h)]
            rfl
          · rw [decide_eq_false h, decide_eq_true (not_le.mp h)]
            rfl
    obtain ⟨x, xs, hx, hxmem, hxmin, hlmem, hlmax⟩ :=
      keyed_insSort_min_max (mtOf fs) m ms
    have hold : resolveOldestLogFile fs g = x := by
      unfold resolveOldestLogFile
      rw [hsort, hx]
    have hnew : resolveNewestLogFile fs g = (x :: xs).getLast (by simp) := by
      unfold resolveNewestLogFile
      rw [hsort, hx]
    have hsymm : Symmetric (fun a b : Str => mtOf fs a ≠ mtOf fs b) :=
      fun a b h => h.symm
    refine ⟨?_, ?_, ?_, ?_, ?_, ?_⟩
    · rw [hold]; exact hxmem
    · intro f hf
      rw [hold]
      exact hxmin f hf
    · rw [hnew]; exact hlmem
    · intro f hf
      rw [hnew]
      exact hlmax f hf
    · intro f hf hfmin
      rw [hold]
      by_contra hne
      have heq : mtOf fs x = mtOf fs f :=
        le_antisymm (hxmin f hf) (hfmin x hxmem)
      exact (hdist.forall hsymm hxmem hf hne) heq
    · intro f hf hfmax
      rw [hnew]
      by_contra hne
      have heq : mtOf fs ((x :: xs).getLast (by simp)) = mtOf fs f :=
        le_antisymm (hfmax _ hlmem) (hlmax f hf)
      exact (hdist.forall hsymm hlmem hf hne) heq
  · intro fs a b h
    rcases h with h | h
    · cases hsa : fs.stat a with
      | openFail => simp [fileLess, hsa]
      | statFail => cases hsb : fs.stat b <;> simp [fileLess, hsa, hsb]
      | ok ta => rw [hsa] at h; simp [FileInfo.isOkB] at h
    · cases hsb : fs.stat b with
      | openFail => cases hsa : fs.stat a <;> simp [fileLess, hsa, hsb]
      | statFail => cases hsa : fs.stat a <;> simp [fileLess, hsa, hsb]
      | ok tb => rw [hsb] at h; simp [FileInfo.isOkB] at h
  · intro fs g hglob
    constructor
    · unfold resolveOldestLogFile sortedAscLogFiles
      rw [hglob]
    · unfold resolveNewestLogFile sortedAscLogFiles
      rw [hglob]

theorem resolveLogFiles_spec_witness :
    resolveOldestLogFile rotFS "g".data = "a.log.2".data ∧
    resolveNewestLogFile rotFS "g".data = "a.log".data := by
  have h := resolveLogFiles_spec.1 rotFS "g".data "a.log".data ["a.log.2".data]
    rfl (by decide) (by decide)
  exact ⟨h.2.2.2.2.1 "a.log.2".data (by simp) (by decide),
    h.2.2.2.2.2 "a.log".data (by simp) (by decide)⟩

/-! ## Lemmas about the literal-pattern match scan -/

theorem findOffsetsAux_lower (p : Char) (ps : Str) :
    ∀ (l : Str) (i skip : Nat), ∀ o ∈ findOffsetsAux p ps l i skip,
      i + skip ≤ o := by
  intro l
  induction l with
  | nil => intro i skip o ho; simp [findOffsetsAux] at ho
  | cons m rest ih =>
    intro i skip o ho
    match skip with
    | s + 1 =>
      rw [findOffsetsAux] at ho
      have := ih (i + 1) s o ho
      omega
    | 0 =>
      rw [findOffsetsAux] at ho
      by_cases hpre : List.isPrefixOf (p :: ps) (m :: rest) = true
      · rw [if_pos hpre] at ho
        rcases List.mem_cons.mp ho with h | ho2
        · omega
        · have := ih (i + 1) ps.length o ho2
          omega
      · rw [if_neg hpre] at ho
        have := ih (i + 1) 0 o ho
        omega

theorem findOffsetsAux_pairwise (p : Char) (ps : Str) :
    ∀ (l : Str) (i skip : Nat),
      (findOffsetsAux p ps l i skip).Pairwise (fun a b => a + ps.length + 1 ≤ b) := by
  intro l
  induction l with
  | nil => intro i skip; simp [findOffsetsAux]
  | cons m rest ih =>
    intro i skip
    match skip with
    | s + 1 =>
      rw [findOffsetsAux]
      exact ih (i + 1) s
    | 0 =>
      rw [findOffsetsAux]
      by_cases hpre : List.isPrefixOf (p :: ps) (m :: rest) = true
      · rw [if_pos hpre]
        refine List.pairwise_cons.mpr ⟨?_, ih (i + 1) ps.length⟩
        intro b hb
        have := findOffsetsAux_lower p ps rest (i + 1) ps.length b hb
        omega
      · rw [if_neg hpre]
        exact ih (i + 1) 0

theorem findOffsetsAux_match (p : Char) (ps : Str) :
    ∀ (l : Str) (i skip : Nat), ∀ o ∈ findOffsetsAux p ps l i skip,
      List.isPrefixOf (p :: ps) (l.drop (o - i)) = true := by
  intro l
  induction l with
  | nil => intro i skip o ho; simp [findOffsetsAux] at ho
  | cons m rest ih =>
    intro i skip o ho
    have hdropStep : ∀ s : Nat, o ∈ findOffsetsAux p ps rest (i + 1) s →
        List.isPrefixOf (p :: ps) ((m :: rest).drop (o - i)) = true := by
      intro s hs
      have hlow := findOffsetsAux_lower p ps rest (i + 1) s o hs
      have := ih (i + 1) s o hs
      have e1 : o - i = (o - (i + 1)) + 1 := by omega
      rw [e1, List.drop_succ_cons]
      exact this
    match skip with
    | s + 1 =>
      rw [findOffsetsAux] at ho
      exact hdropStep s ho
    | 0 =>
      rw [findOffsetsAux] at ho
      by_cases hpre : List.isPrefixOf (p :: ps) (m :: rest) = true
      · rw [if_pos hpre] at ho
        rcases List.mem_cons.mp ho with h | ho2
        · rw [h]
          simpa using hpre
        · exact hdropStep ps.length ho2
      · rw [if_neg hpre] at ho
        exact hdropStep 0 ho

theorem take_of_isPrefixOf {pat l : Str} (h : List.isPrefixOf pat l = true) :
    l.take pat.length = pat := by
  have h2 : pat <+: l := List.isPrefixOf_iff_prefix.mp h
  exact (List.prefix_iff_eq_take.mp h2).symm

theorem containsSubstr_append_left (a b : Str) :
    containsSubstr (a ++ b) b = true := by
  induction a with
  | nil =>
    cases b with
    | nil => simp [containsSubstr]
    | cons x xs =>
      simp only [List.nil_append, containsSubstr]
      rw [Bool.or_eq_true]
      exact Or.inl (List.isPrefixOf_iff_prefix.mpr (List.prefix_refl _))
  | cons x xs ih =>
    simp only [List.cons_append, containsSubstr]
    rw [Bool.or_eq_true]
    exact Or.inr ih

theorem containsSubstr_of_middle (a b c : Str) :
    containsSubstr (a ++ b ++ c) b = true := by
  induction a with
  | nil =>
    simp only [List.nil_append]
    cases b with
    | nil => cases c <;> simp [containsSubstr]
    | cons x xs =>
      simp only [List.cons_append, containsSubstr]
      rw [Bool.or_eq_true]
      refine Or.inl (List.isPrefixOf_iff_prefix.mpr ?_)
      exact ⟨c, by simp⟩
  | cons x xs ih =>
    simp only [List.cons_append, containsSubstr]
    rw [Bool.or_eq_true]
    right
    simpa using ih

/-- C8: for every pattern applied by a log-backed reader's `Find` (the
regexp engine embedded for literal patterns): when there are zero matches
over the full read bytes, `Find` fails with an error whose message
contains the path and the pattern, returning no results; otherwise it
returns exactly the matched substrings, which are occurrences of the
pattern at strictly increasing, non-overlapping byte offsets.  Both the
file-backed and the journal-backed reader behave this way. -/
theorem logReaderFind_spec (fs : FS) (l : LogReader) (p : Char) (ps : Str)
    (messages : Str) (l2 : LogReader)
    (hread : LogReader.Read fs l = (.ok messages, l2)) :
    (findAll (p :: ps) messages = [] →
      LogReader.FindRe fs l (p :: ps) =
        (.error (noMatchMsg l.Path (p :: ps)), l2)) ∧
    (findAll (p :: ps) messages ≠ [] →
      LogReader.FindRe fs l (p :: ps) =
        (.ok (findAll (p :: ps) messages), l2)) ∧
    containsSubstr (noMatchMsg l.Path (p :: ps)) l.Path = true ∧
    containsSubstr (noMatchMsg l.Path (p :: ps)) (p :: ps) = true ∧
    findAll (p :: ps) messages =
      (findOffsetsAux p ps messages 0 0).map (fun _ => p :: ps) ∧
    (findOffsetsAux p ps messages 0 0).Pairwise
      (fun a b => a + (p :: ps).length ≤ b) ∧
    (∀ o ∈ findOffsetsAux p ps messages 0 0,
      List.isPrefixOf (p :: ps) (messages.drop o) = true) ∧
    (∀ (jr jr2 : JournalReader) (jmsg : Str),
      JournalReader.Read fs jr = (.ok jmsg, jr2) →
      (findAll (p :: ps) jmsg = [] →
        JournalReader.FindRe fs jr (p :: ps) =
          (.error (noMatchMsg jr.Path (p :: ps)), jr2)) ∧
      (findAll (p :: ps) jmsg ≠ [] →
        JournalReader.FindRe fs jr (p :: ps) =
          (.ok (findAll (p :: ps) jmsg), jr2))) := by
  have hmatch : ∀ o ∈ findOffsetsAux p ps messages 0 0,
      List.isPrefixOf (p :: ps) (messages.drop o) = true := by
    intro o ho
    have := findOffsetsAux_match p ps messages 0 0 o ho
    simpa using this
  refine ⟨?_, ?_, ?_, ?_, ?_, ?_, hmatch, ?_⟩
  · intro hempty
    unfold LogReader.FindRe
    rw [hread]
    simp [hempty]
  · intro hne
    unfold LogReader.FindRe
    rw [hread]
    cases hfa : findAll (p :: ps) messages with
    | nil => exact absurd hfa hne
    | cons x xs => simp [hfa]
  · have : noMatchMsg l.Path (p :: ps) =
        "no matches in ".data ++ l.Path ++
          (" for regex \x22".data ++ (p :: ps) ++ "\x22".data) := by
      unfold noMatchMsg
      simp [List.append_assoc]
    rw [this]
    exact containsSubstr_of_middle _ _ _
  · have : noMatchMsg l.Path (p :: ps) =
        ("no matches in ".data ++ l.Path ++ " for regex \x22".data) ++
          (p :: ps) ++ "\x22".data := by
      unfold noMatchMsg
      simp [List.append_assoc]
    rw [this]
    exact containsSubstr_of_middle _ _ _
  · unfold findAll
    apply List.map_congr_left
    intro o ho
    have hpre := findOffsetsAux_match p ps messages 0 0 o ho
    rw [Nat.sub_zero] at hpre
    have := take_of_isPrefixOf hpre
    simpa using this
  · have := findOffsetsAux_pairwise p ps messages 0 0
    simpa using this
  · intro jr jr2 jmsg hjread
    constructor
    · intro hempty
      unfold JournalReader.FindRe
      rw [hjread]
      simp [hempty]
    · intro hne
      unfold JournalReader.FindRe
      rw [hjread]
      cases hfa : findAll (p :: ps) jmsg with
      | nil => exact absurd hfa hne
      | cons x xs => simp [hfa]

theorem logReaderFind_spec_witness :
    LogReader.FindRe rotFS litLR "ab".data =
      (.ok ["ab".data, "ab".data], litLR) := by
  have h := (logReaderFind_spec rotFS litLR 'a' "b".data "xabyab".data litLR
    rfl).2.1 (by decide)
  rw [show ("ab".data : Str) = 'a' :: "b".data from rfl, h]
  have e : findAll ('a' :: "b".data) "xabyab".data = ["ab".data, "ab".data] := by
    decide
  rw [e]

/-- C6: `Read`'s algorithm for both readers: a populated cache is
returned as-is; otherwise the path is resolved (directly, or as the
oldest rotation for the glob-backed file reader and the newest rotation
for the glob-backed journal reader), the file is opened (the journal
reader delegating byte acquisition to the journal decoder), a resolved
name ending in `.gz` is transparently decompressed — so that regex
matching operates on the decompressed content — the bytes are read to
completion, and the result is cached. -/
theorem readerRead_algorithm :
    (∀ (fs : FS) (l : LogReader) (b : Str), l.file = some b →
      LogReader.Read fs l = (.ok b, l)) ∧
    (∀ (fs : FS) (l : LogReader), l.file = none →
      fs.openFile (if l.Glob then resolveOldestLogFile fs l.Path else l.Path) = none →
      LogReader.Read fs l =
        (.error (openErrMsg (if l.Glob then resolveOldestLogFile fs l.Path else l.Path)), l)) ∧
    (∀ (fs : FS) (l : LogReader) (bytes d : Str), l.file = none →
      fs.openFile (if l.Glob then resolveOldestLogFile fs l.Path else l.Path) = some bytes →
      List.isSuffixOf ".gz".data
        (if l.Glob then resolveOldestLogFile fs l.Path else l.Path) = true →
      fs.gunzip bytes = some d →
      LogReader.Read fs l = (.ok d, { l with file := some d })) ∧
    (∀ (fs : FS) (l : LogReader) (bytes : Str), l.file = none →
      fs.openFile (if l.Glob then resolveOldestLogFile fs l.Path else l.Path) = some bytes →
      List.isSuffixOf ".gz".data
        (if l.Glob then resolveOldestLogFile fs l.Path else l.Path) = true →
      fs.gunzip bytes = none →
      LogReader.Read fs l =
        (.error (gzipErrMsg (if l.Glob then resolveOldestLogFile fs l.Path else l.Path)), l)) ∧
    (∀ (fs : FS) (l : LogReader) (bytes : Str), l.file = none →
      fs.openFile (if l.Glob then resolveOldestLogFile fs l.Path else l.Path) = some bytes →
      List.isSuffixOf ".gz".data
        (if l.Glob then resolveOldestLogFile fs l.Path else l.Path) = false →
      LogReader.Read fs l = (.ok bytes, { l with file := some bytes })) ∧
    (∀ (fs : FS) (l : LogReader) (bytes d pat : Str), l.file = none →
      fs.openFile (if l.Glob then resolveOldestLogFile fs l.Path else l.Path) = some bytes →
      List.isSuffixOf ".gz".data
        (if l.Glob then resolveOldestLogFile fs l.Path else l.Path) = true →
      fs.gunzip bytes = some d →
      findAll pat d ≠ [] →
      LogReader.FindRe fs l pat = (.ok (findAll pat d), { l with file := some d })) ∧
    (∀ (fs : FS) (jr : JournalReader) (b : Str), jr.file = some b →
      JournalReader.Read fs jr = (.ok b, jr)) ∧
    (∀ (fs : FS) (jr : JournalReader), jr.file = none →
      fs.journalRead (if jr.Glob then resolveNewestLogFile fs jr.Path else jr.Path) = none →
      JournalReader.Read fs jr =
        (.error (journalErrMsg
          (if jr.Glob then resolveNewestLogFile fs jr.Path else jr.Path)), jr)) ∧
    (∀ (fs : FS) (jr : JournalReader) (bytes : Str), jr.file = none →
      fs.journalRead (if jr.Glob then resolveNewestLogFile fs jr.Path else jr.Path) = some bytes →
      JournalReader.Read fs jr = (.ok bytes, { jr with file := some bytes })) := by
  have hgzok : ∀ (fs : FS) (l : LogReader) (bytes d : Str), l.file = none →
      fs.openFile (if l.Glob then resolveOldestLogFile fs l.Path else l.Path) = some bytes →
      List.isSuffixOf ".gz".data
        (if l.Glob then resolveOldestLogFile fs l.Path else l.Path) = true →
      fs.gunzip bytes = some d →
      LogReader.Read fs l = (.ok d, { l with file := some d }) := by
    intro fs l bytes d hfile hopen hgz hzip
    simp [LogReader.Read, hfile, hopen, hgz, hzip]
  refine ⟨?_, ?_, hgzok, ?_, ?_, ?_, ?_, ?_, ?_⟩
  · intro fs l b hfile
    simp [LogReader.Read, hfile]
  · intro fs l hfile hopen
    simp [LogReader.Read, hfile, hopen]
  · intro fs l bytes hfile hopen hgz hzip
    simp [LogReader.Read, hfile, hopen, hgz, hzip]
  · intro fs l bytes hfile hopen hgz
    simp [LogReader.Read, hfile, hopen, hgz]
  · intro fs l bytes d pat hfile hopen hgz hzip hne
    have hrd := hgzok fs l bytes d hfile hopen hgz hzip
    unfold LogReader.FindRe
    rw [hrd]
    cases hfa : findAll pat d with
    | nil => exact absurd hfa hne
    | cons x xs => simp [hfa]
  · intro fs jr b hfile
    simp [JournalReader.Read, hfile]
  · intro fs jr hfile hj
    simp [JournalReader.Read, hfile, hj]
  · intro fs jr bytes hfile hj
    simp [JournalReader.Read, hfile, hj]

theorem readerRead_algorithm_witness :
    LogReader.Read gzFS gzLR =
      (.ok "xabyab".data, { gzLR with file := some "xabyab".data }) ∧
    JournalReader.Read fsV1 plainJR =
      (.ok "j1".data, { plainJR with file := some "j1".data }) :=
  ⟨readerRead_algorithm.2.2.1 gzFS gzLR "rawgz".data "xabyab".data rfl
      (by decide) (by decide) (by decide),
    readerRead_algorithm.2.2.2.2.2.2.2.2 fsV1 plainJR "j1".data rfl (by decide)⟩

theorem logRead_ok_file (fs : FS) (l : LogReader) (b : Str) (l1 : LogReader)
    (h : LogReader.Read fs l = (.ok b, l1)) : l1.file = some b := by
  cases hfile : l.file with
  | some c =>
    simp [LogReader.Read, hfile, Prod.ext_iff] at h
    rw [← h.2, hfile, h.1]
  | none =>
    cases hopen : fs.openFile (if l.Glob then resolveOldestLogFile fs l.Path else l.Path) with
    | none => simp [LogReader.Read, hfile, hopen] at h
    | some bytes =>
      by_cases hgz : List.isSuffixOf ".gz".data
          (if l.Glob then resolveOldestLogFile fs l.Path else l.Path) = true
      · cases hzip : fs.gunzip bytes with
        | none => simp [LogReader.Read, hfile, hopen, hgz, hzip] at h
        | some d =>
          simp [LogReader.Read, hfile, hopen, hgz, hzip, Prod.ext_iff] at h
          rw [← h.2]
          simp [h.1]
      · simp [LogReader.Read, hfile, hopen, hgz, Prod.ext_iff] at h
        rw [← h.2]
        simp [h.1]

theorem logRead_err_state (fs : FS) (l : LogReader) (e : Str) (l1 : LogReader)
    (h : LogReader.Read fs l = (.error e, l1)) : l1 = l := by
  cases hfile : l.file with
  | some c => simp [LogReader.Read, hfile, Prod.ext_iff] at h
  | none =>
    cases hopen : fs.openFile (if l.Glob then resolveOldestLogFile fs l.Path else l.Path) with
    | none =>
      simp [LogReader.Read, hfile, hopen, Prod.ext_iff] at h
      exact h.2.symm
    | some bytes =>
      by_cases hgz : List.isSuffixOf ".gz".data
          (if l.Glob then resolveOldestLogFile fs l.Path else l.Path) = true
      · cases hzip : fs.gunzip bytes with
        | none =>
          simp [LogReader.Read, hfile, hopen, hgz, hzip, Prod.ext_iff] at h
          exact h.2.symm
        | some d => simp [LogReader.Read, hfile, hopen, hgz, hzip, Prod.ext_iff] at h
      · simp [LogReader.Read, hfile, hopen, hgz, Prod.ext_iff] at h

theorem logRead_clearCache (fs : FS) (l : LogReader) :
    LogReader.ClearCache (LogReader.Read fs l).2 = LogReader.ClearCache l := by
  cases hfile : l.file with
  | some c => simp [LogReader.Read, hfile]
  | none =>
    cases hopen : fs.openFile (if l.Glob then resolveOldestLogFile fs l.Path else l.Path) with
    | none => simp [LogReader.Read, hfile, hopen]
    | some bytes =>
      by_cases hgz : List.isSuffixOf ".gz".data
          (if l.Glob then resolveOldestLogFile fs l.Path else l.Path) = true
      · cases hzip : fs.gunzip bytes with
        | none => simp [LogReader.Read, hfile, hopen, hgz, hzip]
        | some d => simp [LogReader.Read, hfile, hopen, hgz, hzip, LogReader.ClearCache]
      · simp [LogReader.Read, hfile, hopen, hgz, LogReader.ClearCache]

theorem jRead_ok_file (fs : FS) (jr : JournalReader) (b : Str) (jr1 : JournalReader)
    (h : JournalReader.Read fs jr = (.ok b, jr1)) : jr1.file = some b := by
  cases hfile : jr.file with
  | some c =>
    simp [JournalReader.Read, hfile, Prod.ext_iff] at h
    rw [← h.2, hfile, h.1]
  | none =>
    cases hj : fs.journalRead (if jr.Glob then resolveNewestLogFile fs jr.Path else jr.Path) with
    | none => simp [JournalReader.Read, hfile, hj] at h
    | some bytes =>
      simp [JournalReader.Read, hfile, hj, Prod.ext_iff] at h
      rw [← h.2]
      simp [h.1]

theorem jRead_err_state (fs : FS) (jr : JournalReader) (e : Str) (jr1 : JournalReader)
    (h : JournalReader.Read fs jr = (.error e, jr1)) : jr1 = jr := by
  cases hfile : jr.file with
  | some c => simp [JournalReader.Read, hfile, Prod.ext_iff] at h
  | none =>
    cases hj : fs.journalRead (if jr.Glob then resolveNewestLogFile fs jr.Path else jr.Path) with
    | none =>
      simp [JournalReader.Read, hfile, hj, Prod.ext_iff] at h
      exact h.2.symm
    | some bytes => simp [JournalReader.Read, hfile, hj, Prod.ext_iff] at h

theorem jRead_clearCache (fs : FS) (jr : JournalReader) :
    JournalReader.ClearCache (JournalReader.Read fs jr).2 = JournalReader.ClearCache jr := by
  cases hfile : jr.file with
  | some c => simp [JournalReader.Read, hfile]
  | none =>
    cases hj : fs.journalRead (if jr.Glob then resolveNewestLogFile fs jr.Path else jr.Path) with
    | none => simp [JournalReader.Read, hfile, hj]
    | some bytes => simp [JournalReader.Read, hfile, hj, JournalReader.ClearCache]

/-- C7: each reader's cache is either absent or fully loaded and
immutable: a second `Read` without an intervening `ClearCache` returns
the byte-identical cached content even if the filesystem changed in
between; a failing `Read` leaves the reader state (and hence the cache)
exactly as it was, so a later call retries from disk; and after
`ClearCache` the next `Read` behaves like a fresh read, reflecting the
current disk content. -/
theorem readerCache_spec :
    (∀ (fs1 fs2 : FS) (l : LogReader) (b : Str) (l1 : LogReader),
      LogReader.Read fs1 l = (.ok b, l1) →
      LogReader.Read fs2 l1 = (.ok b, l1)) ∧
    (∀ (fs : FS) (l : LogReader) (e : Str) (l1 : LogReader),
      LogReader.Read fs l = (.error e, l1) → l1 = l) ∧
    (∀ (fs1 fs2 : FS) (l : LogReader),
      LogReader.Read fs2 (LogReader.ClearCache (LogReader.Read fs1 l).2) =
        LogReader.Read fs2 (LogReader.ClearCache l)) ∧
    (∀ (fs : FS) (l : LogReader) (b : Str),
      fs.openFile l.Path = some b → l.Glob = false →
      List.isSuffixOf ".gz".data l.Path = false →
      LogReader.Read fs (LogReader.ClearCache l) =
        (.ok b, { l with file := some b })) ∧
    (∀ (fs1 fs2 : FS) (jr : JournalReader) (b : Str) (jr1 : JournalReader),
      JournalReader.Read fs1 jr = (.ok b, jr1) →
      JournalReader.Read fs2 jr1 = (.ok b, jr1)) ∧
    (∀ (fs : FS) (jr : JournalReader) (e : Str) (jr1 : JournalReader),
      JournalReader.Read fs jr = (.error e, jr1) → jr1 = jr) ∧
    (∀ (fs1 fs2 : FS) (jr : JournalReader),
      JournalReader.Read fs2 (JournalReader.ClearCache (JournalReader.Read fs1 jr).2) =
        JournalReader.Read fs2 (JournalReader.ClearCache jr)) ∧
    (∀ (fs : FS) (jr : JournalReader) (b : Str),
      fs.journalRead jr.Path = some b → jr.Glob = false →
      JournalReader.Read fs (JournalReader.ClearCache jr) =
        (.ok b, { jr with file := some b })) := by
  refine ⟨?_, logRead_err_state, ?_, ?_, ?_, jRead_err_state, ?_, ?_⟩
  · intro fs1 fs2 l b l1 h
    have hf := logRead_ok_file fs1 l b l1 h
    simp [LogReader.Read, hf]
  · intro fs1 fs2 l
    rw [logRead_clearCache fs1 l]
  · intro fs l b hopen hglob hgz
    simp [LogReader.Read, LogReader.ClearCache, hglob, hopen, hgz]
  · intro fs1 fs2 jr b jr1 h
    have hf := jRead_ok_file fs1 jr b jr1 h
    simp [JournalReader.Read, hf]
  · intro fs1 fs2 jr
    rw [jRead_clearCache fs1 jr]
  · intro fs jr b hj hglob
    simp [JournalReader.Read, JournalReader.ClearCache, hglob, hj]

theorem readerCache_spec_witness :
    LogReader.Read fsV2 (LogReader.Read fsV1 plainLR).2 =
      (.ok "v1".data, (LogReader.Read fsV1 plainLR).2) ∧
    LogReader.Read fsV2 (LogReader.ClearCache (LogReader.Read fsV1 plainLR).2) =
      (.ok "v2".data, { plainLR with file := some "v2".data }) := by
  have h1 : LogReader.Read fsV1 plainLR =
      (.ok "v1".data, { plainLR with file := some "v1".data }) :=
    readerCache_spec.2.2.2.1 fsV1 plainLR "v1".data rfl rfl (by decide)
  constructor
  · rw [h1]
    exact readerCache_spec.1 fsV1 fsV2 plainLR "v1".data _ h1
  · rw [h1]
    exact readerCache_spec.2.2.2.1 fsV2 plainLR "v2".data rfl rfl (by decide)

/-- C9: a node-ready lookup on a node whose status conditions contain no
`Ready` condition with status `True` fails with the `ConditionNotFound`
error; a pod lookup returning zero matching objects fails with the
`ObjectNotFound` error; and when several conditions match, all of their
transition times are returned (exactly the matching ones, in order). -/
theorem k8sLookup_spec :
    (∀ (api : K8sApi) (node : K8sNode),
      api.getNode = .ok node →
      (∀ c ∈ node.conditions,
        ¬(c.type = "Ready".data ∧ c.status = "True".data)) →
      k8sFindNodeReadyTime api =
        .error "unable to find nodes with Ready condition".data) ∧
    (∀ api : K8sApi, api.listPods = .ok [] →
      k8sFindPod api = .error "unable to find pods".data) ∧
    (∀ (api : K8sApi) (node : K8sNode) (m : Str) (ms : List Str),
      api.getNode = .ok node →
      node.conditions.filterMap (fun c =>
        if c.type = "Ready".data ∧ c.status = "True".data then
          some (intStr c.lastTransitionTime)
        else none) = m :: ms →
      k8sFindNodeReadyTime api = .ok (m :: ms)) ∧
    (∀ (node : K8sNode) (c : K8sCondition), c ∈ node.conditions →
      c.type = "Ready".data → c.status = "True".data →
      intStr c.lastTransitionTime ∈ node.conditions.filterMap (fun c2 =>
        if c2.type = "Ready".data ∧ c2.status = "True".data then
          some (intStr c2.lastTransitionTime)
        else none)) := by
  refine ⟨?_, ?_, ?_, ?_⟩
  · intro api node hget hnone
    have hfm : node.conditions.filterMap (fun c =>
        if c.type = "Ready".data ∧ c.status = "True".data then
          some (intStr c.lastTransitionTime)
        else none) = [] := by
      rw [List.filterMap_eq_nil_iff]
      intro c hc
      rw [if_neg (hnone c hc)]
    unfold k8sFindNodeReadyTime
    rw [hget]
    simp [hfm]
  · intro api hpods
    unfold k8sFindPod
    rw [hpods]
  · intro api node m ms hget hfm
    unfold k8sFindNodeReadyTime
    rw [hget]
    simp [hfm]
  · intro node c hc htype hstatus
    rw [List.mem_filterMap]
    exact ⟨c, hc, by rw [if_pos ⟨htype, hstatus⟩]⟩

theorem k8sLookup_spec_witness :
    k8sFindNodeReadyTime apiTwoReady = .ok ["5".data, "9".data] ∧
    k8sFindPod apiTwoReady = .error "unable to find pods".data :=
  ⟨k8sLookup_spec.2.2.1 apiTwoReady nodeTwoReady "5".data ["9".data] rfl (by decide),
    k8sLookup_spec.2.1 apiTwoReady rfl⟩

theorem selectMatches_all {τ : Type} (rs : List (FindResult τ)) :
    SelectMatches rs EventMatchSelectorAll = rs := by
  cases rs with
  | nil => rfl
  | cons r rs =>
    have h1 : EventMatchSelectorAll ≠ EventMatchSelectorFirst := by decide
    have h2 : EventMatchSelectorAll ≠ EventMatchSelectorLast := by decide
    simp [SelectMatches, h1, h2]

/-- C1 counterexample: a journal-backed (log-backed) source whose event
matches the line `hi`, on which timestamp extraction fails
(`TimestampNotFound`).  The claim says `Find` aborts and returns the
error; instead `Find` succeeds, attaching the error to the single
`FindResult`'s `Err` — exactly the behaviour the claim reserves for the
cluster-state source. -/
theorem journalFind_no_abort_counterexample :
    (journalSourceFind fsV1 2026 noTsJR noTsEvent).1 =
      .ok [⟨"hi".data, zeroGoTime, [],
        some (tsNotFoundMsg "re".data "hi".data)⟩] ∧
    (journalSourceFind fsV1 2026 noTsJR noTsEvent).1 ≠
      .error (tsNotFoundMsg "re".data "hi".data) := by
  constructor
  · rfl
  · intro h
    rw [show (journalSourceFind fsV1 2026 noTsJR noTsEvent).1 =
      .ok [⟨"hi".data, zeroGoTime, [],
        some (tsNotFoundMsg "re".data "hi".data)⟩] from rfl] at h
    exact Except.noConfusion h

/-- C1 (amended): whenever byte acquisition and the event's match
function succeed, the journal-backed source's `Find` does not abort on a
per-line timestamp extraction failure: it attaches each line's parse
error (if any) to that line's `FindResult.Err` and returns the whole
batch; the cluster-state source does the same with `ParseTimeFor`
failures. -/
theorem sourceFind_attaches_parse_errors :
    (∀ (fs : FS) (year : Nat) (jr jr2 : JournalReader) (event : Event)
        (logBytes : Str) (lines : List Str),
      JournalReader.Read fs jr = (.ok logBytes, jr2) →
      event.FindFn logBytes = .ok lines →
      journalSourceFind fs year jr event =
        (.ok (SelectMatches
          (insSort (fun a b => ! decide (timeKey b.timestamp < timeKey a.timestamp))
            (assembleJournalResults year jr2 event lines)) event.MatchSelector), jr2) ∧
      (assembleJournalResults year jr2 event lines).map (fun r => r.err) =
        lines.map (fun line => (JournalReader.ParseTimestamp year jr2 line).2) ∧
      (event.MatchSelector = EventMatchSelectorAll →
        (SelectMatches
          (insSort (fun a b => ! decide (timeKey b.timestamp < timeKey a.timestamp))
            (assembleJournalResults year jr2 event lines))
          event.MatchSelector).Perm
          (assembleJournalResults year jr2 event lines))) ∧
    (∀ (event : Event) (evs : List Str),
      event.FindFn [] = .ok evs →
      k8sSourceFind event =
        .ok (SelectMatches (evs.map (fun kev =>
          ({ line := kev,
             timestamp := (parseTimeFor kev).1,
             comment := match event.CommentFn with | none => [] | some f => f kev,
             err := (parseTimeFor kev).2 } : FindResult Int))) event.MatchSelector) ∧
      (evs.map (fun kev =>
          ({ line := kev,
             timestamp := (parseTimeFor kev).1,
             comment := match event.CommentFn with | none => [] | some f => f kev,
             err := (parseTimeFor kev).2 } : FindResult Int))).map (fun r => r.err) =
        evs.map (fun kev => (parseTimeFor kev).2)) := by
  constructor
  · intro fs year jr jr2 event logBytes lines hread hfind
    refine ⟨?_, ?_, ?_⟩
    · unfold journalSourceFind
      rw [hread]
      simp [hfind]
    · unfold assembleJournalResults
      rw [List.map_map]
      rfl
    · intro hsel
      rw [hsel, selectMatches_all]
      exact perm_insSort _ _
  · intro event evs hfind
    constructor
    · unfold k8sSourceFind
      rw [hfind]
    · rw [List.map_map]
      rfl

theorem sourceFind_attaches_parse_errors_witness :
    journalSourceFind fsV1 2026 noTsJR noTsEvent =
      (.ok [⟨"hi".data, zeroGoTime, [],
        some (tsNotFoundMsg "re".data "hi".data)⟩], noTsJR) := by
  have h := (sourceFind_attaches_parse_errors.1 fsV1 2026 noTsJR noTsJR
    noTsEvent "log".data ["hi".data] rfl rfl).1
  rw [h]
  rfl

/-- C4: the journal-backed source's `Find` assembles the `FindResult`s
and sorts them ascending by extracted timestamp before applying the
selection policy (so with selector `all` and distinct timestamps the
output is in chronological order regardless of the physical order of the
matched lines), whereas the cluster-state source's `Find` does not
reorder its results. -/
theorem findResults_sorted_before_select :
    (∀ (fs : FS) (year : Nat) (jr jr2 : JournalReader) (event : Event)
        (logBytes : Str) (lines : List Str),
      JournalReader.Read fs jr = (.ok logBytes, jr2) →
      event.FindFn logBytes = .ok lines →
      journalSourceFind fs year jr event =
        (.ok (SelectMatches
          (insSort (fun a b => ! decide (timeKey b.timestamp < timeKey a.timestamp))
            (assembleJournalResults year jr2 event lines)) event.MatchSelector), jr2) ∧
      (insSort (fun a b => ! decide (timeKey b.timestamp < timeKey a.timestamp))
          (assembleJournalResults year jr2 event lines)).Pairwise
        (fun a b => timeKey a.timestamp ≤ timeKey b.timestamp) ∧
      (insSort (fun a b => ! decide (timeKey b.timestamp < timeKey a.timestamp))
          (assembleJournalResults year jr2 event lines)).Perm
        (assembleJournalResults year jr2 event lines)) ∧
    (∀ (event : Event) (evs : List Str),
      event.FindFn [] = .ok evs →
      event.MatchSelector = EventMatchSelectorAll →
      k8sSourceFind event =
        .ok (evs.map (fun kev =>
          ({ line := kev,
             timestamp := (parseTimeFor kev).1,
             comment := match event.CommentFn with | none => [] | some f => f kev,
             err := (parseTimeFor kev).2 } : FindResult Int))) ∧
      (evs.map (fun kev =>
          ({ line := kev,
             timestamp := (parseTimeFor kev).1,
             comment := match event.CommentFn with | none => [] | some f => f kev,
             err := (parseTimeFor kev).2 } : FindResult Int))).map (fun r => r.line) =
        evs) := by
  constructor
  · intro fs year jr jr2 event logBytes lines hread hfind
    refine ⟨?_, ?_, perm_insSort _ _⟩
    · unfold journalSourceFind
      rw [hread]
      simp [hfind]
    · have htotal : ∀ a b : FindResult GoTime,
          (! decide (timeKey b.timestamp < timeKey a.timestamp)) = true ∨
          (! decide (timeKey a.timestamp < timeKey b.timestamp)) = true := by
        intro a b
        rcases Nat.le_total (timeKey a.timestamp) (timeKey b.timestamp) with h | h
        · left; simp [Nat.not_lt.mpr h]
        · right; simp [Nat.not_lt.mpr h]
      have htrans : ∀ a b c : FindResult GoTime,
          (! decide (timeKey b.timestamp < timeKey a.timestamp)) = true →
          (! decide (timeKey c.timestamp < timeKey b.timestamp)) = true →
          (! decide (timeKey c.timestamp < timeKey a.timestamp)) = true := by
        intro a b c hab hbc
        simp only [Bool.not_eq_true', decide_eq_false_iff_not, Nat.not_lt] at hab hbc ⊢
        omega
      have hpw := pairwise_insSort
        (fun a b : FindResult GoTime =>
          ! decide (timeKey b.timestamp < timeKey a.timestamp))
        htotal htrans (assembleJournalResults year jr2 event lines)
      refine hpw.imp ?_
      intro a b h
      simp only [Bool.not_eq_true', decide_eq_false_iff_not, Nat.not_lt] at h
      exact h
  · intro event evs hfind hsel
    constructor
    · unfold k8sSourceFind
      rw [hfind]
      simp [hsel, selectMatches_all]
    · rw [List.map_map]
      exact List.map_id evs

theorem findResults_sorted_before_select_witness :
    (journalSourceFind fsV1 2026 sortJR sortEvent).1 =
      .ok [⟨"Jan 1 00:00:00 2026".data, ⟨2026, 1, 1, 0, 0, 0⟩, [], none⟩,
           ⟨"Jan 2 00:00:00 2026".data, ⟨2026, 1, 2, 0, 0, 0⟩, [], none⟩,
           ⟨"Jan 3 00:00:00 2026".data, ⟨2026, 1, 3, 0, 0, 0⟩, [], none⟩] ∧
    k8sSourceFind k8sSeqEvent =
      .ok [⟨"9".data, 9, [], none⟩, ⟨"5".data, 5, [], none⟩,
           ⟨"7".data, 7, [], none⟩] := by
  have h1 := (findResults_sorted_before_select.1 fsV1 2026 sortJR sortJR
    sortEvent "x".data
    ["Jan 3 00:00:00 2026".data, "Jan 1 00:00:00 2026".data,
     "Jan 2 00:00:00 2026".data] rfl rfl).1
  have h2 := (findResults_sorted_before_select.2 k8sSeqEvent
    ["9".data, "5".data, "7".data] rfl rfl).1
  constructor
  · rw [h1]
    rfl
  · rw [h2]
    rfl

theorem natDigitsAux_lt10 : ∀ (fuel n : Nat), ∀ x ∈ natDigitsAux fuel n, x < 10 := by
  intro fuel
  induction fuel with
  | zero => intro n x hx; simp [natDigitsAux] at hx
  | succ f ih =>
    intro n x hx
    match n with
    | 0 => simp [natDigitsAux] at hx
    | n + 1 =>
      rw [natDigitsAux] at hx
      rcases List.mem_cons.mp hx with h | h
      · rw [h]; exact Nat.mod_lt _ (by omega)
      · exact ih _ x h

theorem natDigitsAux_val : ∀ (fuel n : Nat), n ≤ fuel →
    List.foldr (fun d a => d + 10 * a) 0 (natDigitsAux fuel n) = n := by
  intro fuel
  induction fuel with
  | zero => intro n hn; interval_cases n; simp [natDigitsAux]
  | succ f ih =>
    intro n hn
    match n with
    | 0 => simp [natDigitsAux]
    | n + 1 =>
      rw [natDigitsAux]
      simp only [List.foldr_cons]
      have hdiv : (n + 1) / 10 ≤ f := by
        have := Nat.div_lt_self (Nat.succ_pos n) (by omega : 1 < 10)
        omega
      rw [ih _ hdiv]
      omega

theorem foldl_congr_mem {α β : Type} (f g : β → α → β) :
    ∀ (l : List α) (b : β), (∀ b2, ∀ x ∈ l, f b2 x = g b2 x) →
      List.foldl f b l = List.foldl g b l
  | [], _, _ => rfl
  | x :: xs, b, h => by
    simp only [List.foldl_cons]
    rw [h b x (by simp)]
    exact foldl_congr_mem f g xs (g b x) (fun b2 y hy => h b2 y (by simp [hy]))

theorem foldr_swap_eq : ∀ ds : List Nat,
    List.foldr (fun d a => a * 10 + d) 0 ds = List.foldr (fun d a => d + 10 * a) 0 ds
  | [] => rfl
  | d :: ds => by
    simp only [List.foldr_cons]
    rw [foldr_swap_eq ds]
    omega

theorem natStr_all_digits (y : Nat) : ∀ c ∈ natStr y, c.isDigit = true := by
  intro c hc
  unfold natStr at hc
  by_cases hy : y = 0
  · rw [if_pos hy] at hc
    simp at hc
    rw [hc]
    decide
  · rw [if_neg hy] at hc
    rw [List.mem_map] at hc
    obtain ⟨d, hd, hcd⟩ := hc
    rw [List.mem_reverse] at hd
    have hd10 : d < 10 := natDigitsAux_lt10 y y d hd
    rw [← hcd]
    have hkey : ∀ d2, d2 < 10 → (Char.ofNat (48 + d2)).isDigit = true := by decide
    exact hkey d hd10

theorem parseNat_natStr (y : Nat) (hy : 0 < y) : parseNatDigits (natStr y) = some y := by
  have hne : natStr y ≠ [] := by
    unfold natStr
    rw [if_neg (by omega)]
    match y, hy with
    | n + 1, _ =>
      rw [natDigitsAux]
      simp
  have hdig : (natStr y).all Char.isDigit = true := by
    rw [List.all_eq_true]
    exact natStr_all_digits y
  unfold parseNatDigits
  rw [if_pos ⟨hne, hdig⟩]
  congr 1
  unfold natStr
  rw [if_neg (by omega)]
  rw [List.foldl_map]
  rw [foldl_congr_mem _ (fun a d => a * 10 + d) _ 0 ?_]
  · rw [List.foldl_reverse]
    have : List.foldr (fun x y2 => (fun a d => a * 10 + d) y2 x) 0 (natDigitsAux y y) =
        List.foldr (fun d a => a * 10 + d) 0 (natDigitsAux y y) := rfl
    rw [this, foldr_swap_eq, natDigitsAux_val y y (le_refl y)]
  · intro b2 x hx
    rw [List.mem_reverse] at hx
    have hx10 : x < 10 := natDigitsAux_lt10 y y x hx
    have hkey : ∀ x2, x2 < 10 → charDigit (Char.ofNat (48 + x2)) = x2 := by decide
    rw [hkey x hx10]

theorem splitCh_append (c : Char) (rest : Str) :
    ∀ a : Str, c ∉ a → splitCh c (a ++ c :: rest) = a :: splitCh c rest
  | [], _ => by simp [splitCh]
  | x :: xs, ha => by
    have hx : ¬(x = c) := fun h => ha (by simp [h])
    have ha2 : c ∉ xs := fun h => ha (by simp [h])
    rw [List.cons_append, splitCh, if_neg hx, splitCh_append c rest xs ha2]

theorem splitCh_single (c : Char) : ∀ a : Str, c ∉ a → splitCh c a = [a]
  | [], _ => rfl
  | x :: xs, ha => by
    have hx : ¬(x = c) := fun h => ha (by simp [h])
    have ha2 : c ∉ xs := fun h => ha (by simp [h])
    simp only [splitCh, if_neg hx]
    rw [splitCh_single c xs ha2]

theorem collapseWSAux_head_not_ws :
    ∀ (s : Str) (t : Char) (ts : Str), collapseWSAux true s = t :: ts →
      isGoSpace t = false
  | [], t, ts, h => by simp [collapseWSAux] at h
  | c :: rest, t, ts, h => by
    by_cases hc : isGoSpace c = true
    · rw [collapseWSAux, if_pos hc] at h
      exact collapseWSAux_head_not_ws rest t ts h
    · rw [collapseWSAux, if_neg hc] at h
      cases h
      simpa using hc

theorem collapseWSAux_chain :
    ∀ (s : Str) (prev : Bool),
      List.Chain' (fun a b => ¬(isGoSpace a = true ∧ isGoSpace b = true))
        (collapseWSAux prev s)
  | [], _ => by simp [collapseWSAux]
  | c :: rest, prev => by
    by_cases hc : isGoSpace c = true
    · cases prev with
      | true =>
        rw [collapseWSAux, if_pos hc]
        exact collapseWSAux_chain rest true
      | false =>
        rw [collapseWSAux, if_pos hc]
        refine List.chain'_cons'.mpr ⟨?_, collapseWSAux_chain rest true⟩
        intro y hy
        cases hh : collapseWSAux true rest with
        | nil => rw [hh] at hy; simp at hy
        | cons t ts =>
          rw [hh] at hy
          simp only [List.head?_cons, Option.mem_some_iff] at hy
          have hws := collapseWSAux_head_not_ws rest t ts hh
          rintro ⟨-, h2⟩
          rw [← hy] at h2
          rw [hws] at h2
          exact Bool.false_ne_true h2
    · rw [collapseWSAux, if_neg hc]
      refine List.chain'_cons'.mpr ⟨?_, collapseWSAux_chain rest false⟩
      intro y hy
      rintro ⟨h1, h2⟩
      exact hc h1

theorem collapseWSAux_ws_space :
    ∀ (s : Str) (prev : Bool), ∀ c ∈ collapseWSAux prev s,
      isGoSpace c = true → c = ' '
  | [], _, c, hc => by simp [collapseWSAux] at hc
  | x :: rest, prev, c, hc => by
    by_cases hx : isGoSpace x = true
    · cases prev with
      | true =>
        rw [collapseWSAux, if_pos hx] at hc
        exact collapseWSAux_ws_space rest true c hc
      | false =>
        rw [collapseWSAux, if_pos hx] at hc
        rcases List.mem_cons.mp hc with h | h
        · intro _; exact h
        · exact collapseWSAux_ws_space rest true c h
    · rw [collapseWSAux, if_neg hx] at hc
      rcases List.mem_cons.mp hc with h | h
      · intro hcws
        rw [h] at hcws
        exact absurd hcws hx
      · exact collapseWSAux_ws_space rest false c h

theorem collapseWSAux_filter :
    ∀ (s : Str) (prev : Bool),
      (collapseWSAux prev s).filter (fun c => ! isGoSpace c) =
        s.filter (fun c => ! isGoSpace c)
  | [], _ => by simp [collapseWSAux]
  | x :: rest, prev => by
    by_cases hx : isGoSpace x = true
    · cases prev with
      | true =>
        rw [collapseWSAux, if_pos hx, if_pos rfl]
        rw [collapseWSAux_filter rest true]
        rw [List.filter_cons]
        simp [hx]
      | false =>
        rw [collapseWSAux, if_pos hx,
          if_neg (by simp : ¬(false = true))]
        rw [List.filter_cons, List.filter_cons]
        have h1 : (! isGoSpace ' ') = false := rfl
        have h2 : (! isGoSpace x) = false := by rw [hx]; rfl
        simp only [h1, h2, Bool.false_eq_true, if_false]
        exact collapseWSAux_filter rest true
    · have hxf : isGoSpace x = false := by simpa using hx
      rw [collapseWSAux, if_neg hx]
      rw [List.filter_cons, List.filter_cons]
      simp [hxf, collapseWSAux_filter rest false]

theorem parseSyslogYear_fmt (m d h mi s y : Nat)
    (hm1 : 1 ≤ m) (hm2 : m ≤ 12) (hd1 : 1 ≤ d) (hd2 : d ≤ 31)
    (hh : h < 24) (hmi : mi < 60) (hs : s < 60) (hy : 0 < y) :
    parseSyslogYear (fmtSyslog m d h mi s ++ ' ' :: natStr y) =
      some ⟨y, m, d, h, mi, s⟩ := by
  have hpad2 : ∀ n2, n2 < 100 → ' ' ∉ pad2 n2 ∧ ':' ∉ pad2 n2 ∧
      parseNatDigits (pad2 n2) = some n2 := by decide
  have hmonNoSp : ' ' ∉ fmtMonth m := by
    have hb : ∀ m2, m2 < 13 → ' ' ∉ fmtMonth m2 := by decide
    exact hb m (by omega)
  have hdayFacts : ∀ d2, d2 < 32 → ' ' ∉ fmtDay d2 ∧
      parseNatDigits (fmtDay d2) = some d2 ∧ (fmtDay d2).length ≤ 2 := by decide
  have hHMSNoSp : ' ' ∉ fmtHMS h mi s := by
    unfold fmtHMS
    intro hmem
    rcases List.mem_append.mp hmem with h1 | h1
    · exact (hpad2 h (by omega)).1 h1
    · rcases List.mem_cons.mp h1 with h2 | h2
      · simp at h2
      · rcases List.mem_append.mp h2 with h3 | h3
        · exact (hpad2 mi (by omega)).1 h3
        · rcases List.mem_cons.mp h3 with h4 | h4
          · simp at h4
          · exact (hpad2 s (by omega)).1 h4
  have hyNoSp : ' ' ∉ natStr y := by
    intro hmem
    have hdig := natStr_all_digits y ' ' hmem
    exact absurd hdig (by decide)
  have hsplit : splitCh ' ' (fmtSyslog m d h mi s ++ ' ' :: natStr y) =
      [fmtMonth m, fmtDay d, fmtHMS h mi s, natStr y] := by
    unfold fmtSyslog
    rw [List.append_assoc, List.cons_append]
    rw [splitCh_append ' ' _ (fmtMonth m) hmonNoSp]
    rw [List.append_assoc, List.cons_append]
    rw [splitCh_append ' ' _ (fmtDay d) (hdayFacts d (by omega)).1]
    rw [splitCh_append ' ' _ (fmtHMS h mi s) hHMSNoSp]
    rw [splitCh_single ' ' (natStr y) hyNoSp]
  have hhms : splitCh ':' (fmtHMS h mi s) = [pad2 h, pad2 mi, pad2 s] := by
    unfold fmtHMS
    rw [splitCh_append ':' _ (pad2 h) (hpad2 h (by omega)).2.1]
    rw [splitCh_append ':' _ (pad2 mi) (hpad2 mi (by omega)).2.1]
    rw [splitCh_single ':' (pad2 s) (hpad2 s (by omega)).2.1]
  have hmon : parseMonth (fmtMonth m) = some m := by
    have hb : ∀ m2, m2 < 13 → 1 ≤ m2 → parseMonth (fmtMonth m2) = some m2 := by decide
    exact hb m (by omega) hm1
  unfold parseSyslogYear
  rw [hsplit]
  simp only [hmon, (hdayFacts d (by omega)).2.1, hhms, parseNat_natStr y hy,
    (hpad2 h (by omega)).2.2, (hpad2 mi (by omega)).2.2, (hpad2 s (by omega)).2.2]
  rw [if_pos ⟨hd1, hd2, hh, hmi, hs, (hdayFacts d (by omega)).2.2, rfl, rfl, rfl⟩]

/-- C3: `ParseTimestamp` (shared by both log-backed readers) collapses
every run of whitespace in the raw matched substring to a single space
(every whitespace character surviving the collapse is a space, no two
adjacent whitespace characters survive, and the non-whitespace characters
are preserved in order); when the collapsed substring does not contain
the current calendar year as a digit sequence, a single space followed by
the current year is appended before parsing, so a year-less syslog
timestamp parses to a time dated in the current year with the extracted
month/day/time preserved exactly; and when the regex finds no match,
`ParseTimestamp` fails with `TimestampNotFound` and returns the zero
time. -/
theorem parseTimestamp_spec :
    (∀ (tsFind : Str → Str) (reStr layout : Str) (year : Nat) (line : Str),
      tsFind line = [] →
      ParseTimestampCore tsFind reStr layout year line =
        (zeroGoTime, some (tsNotFoundMsg reStr line))) ∧
    (∀ s : Str,
      List.Chain' (fun a b => ¬(isGoSpace a = true ∧ isGoSpace b = true))
        (collapseWS s)) ∧
    (∀ s : Str, ∀ c ∈ collapseWS s, isGoSpace c = true → c = ' ') ∧
    (∀ s : Str, (collapseWS s).filter (fun c => ! isGoSpace c) =
      s.filter (fun c => ! isGoSpace c)) ∧
    (∀ (tsFind : Str → Str) (reStr : Str) (year m d h mi s : Nat) (line : Str),
      tsFind line ≠ [] →
      collapseWS (tsFind line) = fmtSyslog m d h mi s →
      1 ≤ m → m ≤ 12 → 1 ≤ d → d ≤ 31 → h < 24 → mi < 60 → s < 60 → 0 < year →
      containsSubstr (fmtSyslog m d h mi s) (natStr year) = false →
      ParseTimestampCore tsFind reStr syslogYearLayout year line =
        (⟨year, m, d, h, mi, s⟩, none)) := by
  refine ⟨?_, ?_, ?_, ?_, ?_⟩
  · intro tsFind reStr layout year line hfind
    unfold ParseTimestampCore
    rw [if_pos hfind]
  · intro s
    exact collapseWSAux_chain s false
  · intro s
    exact collapseWSAux_ws_space s false
  · intro s
    exact collapseWSAux_filter s false
  · intro tsFind reStr year m d h mi s line hne hcol hm1 hm2 hd1 hd2 hh hmi hs hy hnc
    unfold ParseTimestampCore
    rw [if_neg hne, hcol]
    simp only [hnc, Bool.false_eq_true, if_false]
    unfold timeParse
    rw [if_pos rfl]
    rw [parseSyslogYear_fmt m d h mi s year hm1 hm2 hd1 hd2 hh hmi hs hy]

theorem parseTimestamp_spec_witness :
    ParseTimestampCore (fun _ => "Jan  2 15:04:05".data) "re".data
        syslogYearLayout 2026 "L".data =
      (⟨2026, 1, 2, 15, 4, 5⟩, none) :=
  parseTimestamp_spec.2.2.2.2 (fun _ => "Jan  2 15:04:05".data) "re".data
    2026 1 2 15 4 5 "L".data (by decide) (by decide) (by decide) (by decide)
    (by decide) (by decide) (by decide) (by decide) (by decide) (by decide)
    (by decide)
